import Mathlib

/-!
Shallow embedding of the KoxiTalk real-time messaging backend
(`backend/app/core/websocket_manager.py`, `backend/app/main.py`,
`backend/app/api/routes/messages.py`) and proofs about the claims of the
specification.

Modelling conventions:
* Python dictionaries (`Dict[int, ...]`) are association lists
  `List (Int × β)`; lookup finds the first matching key, update rewrites
  the first matching entry (or appends a fresh one), matching `d[k] = v`.
* Python sets (`Set[int]`) are duplicate-free `List Int` values; `set.add`
  appends when absent, `set.remove` / `set.discard` filter the element out.
* A WebSocket connection object is an opaque handle `Nat`.
* Transport failure is modelled by a parameter `F : List Nat`, the set of
  connections whose `send_text` raises; `send_personal_message` catches
  exactly those exceptions, as in the source.
* Timestamps (`datetime.utcnow()`) are payload-irrelevant to every claim and
  are omitted from the event payloads.
* A Python function that can raise an uncaught exception is embedded with
  `Except Unit`; a raised exception leaves the mutations performed before the
  raise in place, matching CPython's in-place mutation semantics.
-/

namespace KoxiTalk

/-- Outbound event payloads, after the tag/field structure of the dictionaries
built in `websocket_manager.py`.  The constructors `ack` and `errorEv` are part
of the outbound vocabulary named by the specification but are never produced
by any code path; they are present so that claims about them can be stated. -/
inductive Payload where
  /-- `{"type": "new_message", "chat_id": _, "sender_id": _, "content": _}` -/
  | newMessage (chat_id sender_id : Int) (content : String)
  /-- `{"type": "typing", "chat_id": _, "user_id": _, "is_typing": _}` -/
  | typing (chat_id user_id : Int) (is_typing : Bool)
  /-- `{"type": "user_status", "user_id": _, "status": _}` -/
  | userStatus (user_id : Int) (status : String)
  /-- `{"type": "message_read", "message_id": _, "chat_id": _, "reader_id": _}` -/
  | messageRead (message_id chat_id reader_id : Int)
  /-- `{"type": "message", "content": _, "sender_id": _}`: the echo dictionary
  built in `main.py` for unparseable inbound text. -/
  | textMessage (sender_id : Int) (content : String)
  /-- An acknowledgement event referencing a canonical message id.  Named by
  the spec; no code in the repository constructs it. -/
  | ack (message_id : Int)
  /-- An error event.  Named by the spec; no code in the repository
  constructs it. -/
  | errorEv (detail : String)
deriving DecidableEq, Repr

/-- One delivery of a payload to one live connection of one user, produced by
`send_personal_message`'s per-connection `send_text` calls. -/
structure Delivery where
  user : Int
  conn : Nat
  payload : Payload
deriving DecidableEq, Repr

/-- The mutable state of `ConnectionManager.__init__`. -/
structure CMState where
  /-- `self.active_connections : Dict[int, List[WebSocket]]` -/
  active_connections : List (Int × List Nat)
  /-- `self.chat_rooms : Dict[int, Set[int]]` -/
  chat_rooms : List (Int × List Int)
  /-- `self.typing_users : Dict[int, Set[int]]` -/
  typing_users : List (Int × List Int)
deriving DecidableEq, Repr

/-- The freshly constructed manager: all three dictionaries empty. -/
def initState : CMState := ⟨[], [], []⟩

/-- Dictionary lookup `d.get(k)` / `d[k]`: first entry with the given key. -/
def alookup {β : Type} (m : List (Int × β)) (k : Int) : Option β :=
  match m with
  | [] => none
  | (k', v) :: rest => if k = k' then some v else alookup rest k

/-- Dictionary write `d[k] = v`: rewrite the first entry with the given key,
or append a fresh entry when the key is absent. -/
def aset {β : Type} (m : List (Int × β)) (k : Int) (v : β) : List (Int × β) :=
  match m with
  | [] => [(k, v)]
  | (k', v') :: rest => if k = k' then (k, v) :: rest else (k', v') :: aset rest k v

/-- Dictionary delete `del d[k]`: drop the first entry with the given key. -/
def aerase {β : Type} (m : List (Int × β)) (k : Int) : List (Int × β) :=
  match m with
  | [] => []
  | (k', v') :: rest => if k = k' then rest else (k', v') :: aerase rest k

/-- Python `list.remove(x)`: drop the first occurrence. -/
def removeFirst (l : List Nat) (x : Nat) : List Nat :=
  match l with
  | [] => []
  | y :: rest => if y = x then rest else y :: removeFirst rest x

/-- Removing each element of `fs` in turn with `list.remove`. -/
def removeAll (l : List Nat) (fs : List Nat) : List Nat :=
  fs.foldl removeFirst l

/-- Python `set.add(x)` on a duplicate-free list. -/
def sadd (l : List Int) (x : Int) : List Int :=
  if x ∈ l then l else l ++ [x]

/-- The live connections of a user: `self.active_connections.get(user_id, [])`. -/
def connsOf (s : CMState) (user_id : Int) : List Nat :=
  (alookup s.active_connections user_id).getD []

/-- `ConnectionManager.send_personal_message(user_id, message)`:
if the user has a registered entry, attempt `send_text` on each connection in
order; a connection in the failure set `F` raises, is caught, and is recorded;
after the loop each failed connection is removed with `list.remove`.
Returns the new state and the per-connection deliveries that succeeded.
The function returns normally on every input (all exceptions are caught). -/
def send_personal_message (F : List Nat) (s : CMState) (user_id : Int) (msg : Payload) :
    CMState × List Delivery :=
  match alookup s.active_connections user_id with
  | none => (s, [])
  | some conns =>
      let disconnected := conns.filter (fun c => c ∈ F)
      let delivered := conns.filter (fun c => c ∉ F)
      let newConns := removeAll conns disconnected
      ({ s with active_connections := aset s.active_connections user_id newConns },
       delivered.map (fun c => { user := user_id, conn := c, payload := msg }))

/-- The Python truthiness test `exclude_user_id and user_id == exclude_user_id`
in `broadcast_to_chat`: `None` and `0` are both falsy, so no exclusion happens
for a `None` or `0` exclude id. -/
def truthyExcl (e : Option Int) (uid : Int) : Bool :=
  match e with
  | none => false
  | some x => !(x == 0) && (uid == x)

/-- One iteration of a broadcast loop: skip the user when the guard `g`
fires, otherwise `send_personal_message` and accumulate its deliveries. -/
def sendStep (F : List Nat) (g : Int → Bool) (msg : Payload)
    (acc : CMState × List Delivery) (uid : Int) : CMState × List Delivery :=
  if g uid then acc
  else
    let p := send_personal_message F acc.1 uid msg
    (p.1, acc.2 ++ p.2)

/-- `ConnectionManager.broadcast_to_chat(chat_id, message, exclude_user_id)`:
no-op when the room is unknown; otherwise send the payload to every member of
the room, skipping a member exactly when the truthiness test fires. -/
def broadcast_to_chat (F : List Nat) (s : CMState) (chat_id : Int) (msg : Payload)
    (exclude_user_id : Option Int) : CMState × List Delivery :=
  match alookup s.chat_rooms chat_id with
  | none => (s, [])
  | some members =>
      members.foldl (sendStep F (truthyExcl exclude_user_id) msg) (s, [])

/-- `ConnectionManager.broadcast_typing_status(chat_id, user_id, is_typing)`. -/
def broadcast_typing_status (F : List Nat) (s : CMState) (chat_id user_id : Int)
    (is_typing : Bool) : CMState × List Delivery :=
  broadcast_to_chat F s chat_id (.typing chat_id user_id is_typing) (some user_id)

/-- `ConnectionManager.set_typing_status(chat_id, user_id, is_typing)`:
ensure the chat has a typing entry, add or discard the user, then broadcast
the typing event to the other members.  No presence check is made. -/
def set_typing_status (F : List Nat) (s : CMState) (chat_id user_id : Int)
    (is_typing : Bool) : CMState × List Delivery :=
  let cur := (alookup s.typing_users chat_id).getD []
  let news := if is_typing then sadd cur user_id else cur.filter (fun v => !(v == user_id))
  let s1 := { s with typing_users := aset s.typing_users chat_id news }
  broadcast_typing_status F s1 chat_id user_id is_typing

/-- `ConnectionManager.broadcast_user_status(user_id, status)`: send a
`user_status` event to every other user with a registered entry. -/
def broadcast_user_status (F : List Nat) (s : CMState) (user_id : Int) (status : String) :
    CMState × List Delivery :=
  (s.active_connections.map Prod.fst).foldl
    (sendStep F (fun uid => uid == user_id) (.userStatus user_id status)) (s, [])

/-- `ConnectionManager.join_chat_room(user_id, chat_id)`: unconditionally add
the user to the room's set, creating the room entry when absent.  No check of
the user's live connections is made. -/
def join_chat_room (s : CMState) (user_id chat_id : Int) : CMState :=
  let cur := (alookup s.chat_rooms chat_id).getD []
  { s with chat_rooms := aset s.chat_rooms chat_id (sadd cur user_id) }

/-- `ConnectionManager.leave_chat_room(user_id, chat_id)`: remove the user from
the room when present; when the user was also typing there, run
`set_typing_status(chat_id, user_id, False)` (which broadcasts). -/
def leave_chat_room (F : List Nat) (s : CMState) (user_id chat_id : Int) :
    CMState × List Delivery :=
  match alookup s.chat_rooms chat_id with
  | none => (s, [])
  | some members =>
      if user_id ∈ members then
        let newRooms := aset s.chat_rooms chat_id (members.filter (fun v => !(v == user_id)))
        let s1 := { s with chat_rooms := newRooms }
        match alookup s1.typing_users chat_id with
        | some tus =>
            if user_id ∈ tus then set_typing_status F s1 chat_id user_id false
            else (s1, [])
        | none => (s1, [])
      else (s, [])

/-- `ConnectionManager.connect(websocket, user_id)`: append the connection to
the user's list (creating the entry on first connection), update the external
Redis status (no in-memory state), and broadcast an online `user_status`. -/
def connect (F : List Nat) (s : CMState) (websocket : Nat) (user_id : Int) :
    CMState × List Delivery :=
  let conns := (alookup s.active_connections user_id).getD []
  let newActive := aset s.active_connections user_id (conns ++ [websocket])
  let s1 := { s with active_connections := newActive }
  broadcast_user_status F s1 user_id "online"

/-- The connection-removal phase of `ConnectionManager.disconnect` (lines
51-59).  When a websocket argument is given but is not in the user's list,
Python's `list.remove` raises `ValueError` before any mutation (`.error`).
When the user's list becomes (or already is) empty, the entry is deleted and
an offline `user_status` broadcast runs. -/
def disconnectPhase1 (F : List Nat) (s : CMState) (user_id : Int) (websocket : Option Nat) :
    Except Unit (CMState × List Delivery) :=
  match alookup s.active_connections user_id with
  | none => .ok (s, [])
  | some conns =>
      match websocket with
      | some w =>
          if w ∈ conns then
            if (removeFirst conns w).isEmpty then
              .ok (broadcast_user_status F
                { s with active_connections := aerase s.active_connections user_id }
                user_id "offline")
            else
              .ok ({ s with active_connections := aset s.active_connections user_id (removeFirst conns w) }, [])
          else .error ()
      | none =>
          if conns.isEmpty then
            .ok (broadcast_user_status F
              { s with active_connections := aerase s.active_connections user_id }
              user_id "offline")
          else .ok (s, [])

/-- The room-purge loop of `ConnectionManager.disconnect` (lines 61-66): drop
the user from every room set, deleting a room entry that becomes empty. -/
def purgeRooms (rooms : List (Int × List Int)) (u : Int) : List (Int × List Int) :=
  rooms.filterMap (fun p =>
    if u ∈ p.2 then
      let r := p.2.filter (fun v => !(v == u))
      if r.isEmpty then none else some (p.1, r)
    else some p)

/-- One iteration of the typing-purge loop of `ConnectionManager.disconnect`
(lines 69-72): when the user is typing in the chat, remove them from the set
and broadcast a typing-stopped event. -/
def purgeTypingStep (F : List Nat) (u : Int) (acc : CMState × List Delivery) (chat_id : Int) :
    CMState × List Delivery :=
  match alookup acc.1.typing_users chat_id with
  | some tus =>
      if u ∈ tus then
        let newTyping := aset acc.1.typing_users chat_id (tus.filter (fun v => !(v == u)))
        let s1 := { acc.1 with typing_users := newTyping }
        let p := broadcast_typing_status F s1 chat_id u false
        (p.1, acc.2 ++ p.2)
      else acc
  | none => acc

/-- The typing-purge loop of `ConnectionManager.disconnect` over the snapshot
`list(self.typing_users.keys())`. -/
def purgeTypingLoop (F : List Nat) (s : CMState) (u : Int) (keys : List Int) :
    CMState × List Delivery :=
  keys.foldl (purgeTypingStep F u) (s, [])

/-- `ConnectionManager.disconnect(user_id, websocket=None)`: connection
removal (possibly with an offline transition), then the unconditional purge of
the user from every room set and every typing set.  The purge runs regardless
of how many live connections the user retains. -/
def disconnect (F : List Nat) (s : CMState) (user_id : Int) (websocket : Option Nat) :
    Except Unit (CMState × List Delivery) :=
  match disconnectPhase1 F s user_id websocket with
  | .error e => .error e
  | .ok (s1, ds1) =>
      let s2 := { s1 with chat_rooms := purgeRooms s1.chat_rooms user_id }
      let p := purgeTypingLoop F s2 user_id (s2.typing_users.map Prod.fst)
      .ok (p.1, ds1 ++ p.2)

/-- The logical fields of a parsed inbound WebSocket dictionary, as read with
`data.get(...)` in `WebSocketManager.handle_message`. -/
structure InboundMsg where
  type : Option String := none
  chat_id : Option Int := none
  content : Option String := none
  is_typing : Option Bool := none
  message_id : Option Int := none
deriving DecidableEq, Repr

/-- The inbound dictionary `{"type": "message", "chat_id": c, "content": t}`. -/
def msgEvent (c : Int) (t : String) : InboundMsg :=
  { type := some "message", chat_id := some c, content := some t }

/-- `WebSocketManager.handle_message(user_id, data)`: dispatch on the tag.
Python truthiness is preserved: `if chat_id:` rejects both a missing field and
the integer `0`; `if chat_id is not None:` (typing) accepts `0`.  The
`"message"` branch broadcasts a `new_message` with **no** persistence call, no
message id, and no `exclude_user_id`; an unrecognised tag falls through every
branch and does nothing. -/
def handle_message (F : List Nat) (s : CMState) (user_id : Int) (data : InboundMsg) :
    CMState × List Delivery :=
  match data.type with
  | some "join_chat" =>
      match data.chat_id with
      | some c => if c == 0 then (s, []) else (join_chat_room s user_id c, [])
      | none => (s, [])
  | some "leave_chat" =>
      match data.chat_id with
      | some c => if c == 0 then (s, []) else leave_chat_room F s user_id c
      | none => (s, [])
  | some "typing" =>
      match data.chat_id with
      | some c => set_typing_status F s c user_id (data.is_typing.getD false)
      | none => (s, [])
  | some "message" =>
      match data.chat_id, data.content with
      | some c, some content =>
          if c == 0 then (s, [])
          else if content == "" then (s, [])
          else broadcast_to_chat F s c (.newMessage c user_id content) none
      | _, _ => (s, [])
  | some "message_read" =>
      match data.message_id, data.chat_id with
      | some mid, some c =>
          if mid == 0 then (s, [])
          else if c == 0 then (s, [])
          else broadcast_to_chat F s c (.messageRead mid c user_id) (some user_id)
      | _, _ => (s, [])
  | _ => (s, [])

/-- One inbound frame as seen by the `websocket_endpoint` loop in `main.py`:
either `json.loads` produced a dictionary, or it raised `JSONDecodeError`. -/
inductive RawInbound where
  | parsed (m : InboundMsg)
  | malformed (text : String)
deriving DecidableEq, Repr

/-- The body of the receive loop of `websocket_endpoint` (`main.py` lines
86-101): a parsed dictionary is dispatched to `handle_message`; unparseable
text is echoed back to the sender's own connections as a `{"type": "message"}`
dictionary via `send_personal_message` — not as an `error` event. -/
def websocket_endpoint_step (F : List Nat) (s : CMState) (user_id : Int) (raw : RawInbound) :
    CMState × List Delivery :=
  match raw with
  | .parsed m => handle_message F s user_id m
  | .malformed text => send_personal_message F s user_id (.textMessage user_id text)

/-- The operations of the manager, for building reachable states by sequences
of calls (transport failures absent, `F = []`). -/
inductive WsOp where
  | connectOp (u : Int) (w : Nat)
  | disconnectOp (u : Int) (w : Option Nat)
  | joinOp (u r : Int)
  | leaveOp (u r : Int)
  | typingOp (u r : Int) (b : Bool)
  | messageOp (u r : Int) (content : String)
deriving DecidableEq, Repr

/-- Apply one operation to the state (a raised `ValueError` in `disconnect`
leaves the state unchanged: the raise happens before any mutation). -/
def applyOp (s : CMState) (op : WsOp) : CMState :=
  match op with
  | .connectOp u w => (connect [] s w u).1
  | .disconnectOp u w =>
      match disconnect [] s u w with
      | .ok p => p.1
      | .error _ => s
  | .joinOp u r => join_chat_room s u r
  | .leaveOp u r => (leave_chat_room [] s u r).1
  | .typingOp u r b => (set_typing_status [] s r u b).1
  | .messageOp u r content => (handle_message [] s u (msgEvent r content)).1

/-- The state reached from the fresh manager by a sequence of operations. -/
def applyOps (ops : List WsOp) : CMState :=
  ops.foldl applyOp initState

/-- The room-membership set `RoomPresence[room]` read from the state. -/
def membersOf (s : CMState) (chat_id : Int) : List Int :=
  (alookup s.chat_rooms chat_id).getD []

/-- A user has at least one live connection. -/
def hasLiveConnection (s : CMState) (u : Int) : Bool :=
  !(connsOf s u).isEmpty

/-- The invariant `TypingState[room] ⊆ RoomPresence[room]` for every room. -/
def typingSubset (s : CMState) : Prop :=
  ∀ p ∈ s.typing_users, ∀ v ∈ p.2, v ∈ membersOf s p.1

instance (s : CMState) : Decidable (typingSubset s) := by
  unfold typingSubset; infer_instance

/-- The invariant that every present user has a live connection. -/
def presenceLive (s : CMState) : Prop :=
  ∀ p ∈ s.chat_rooms, ∀ v ∈ p.2, hasLiveConnection s v = true

instance (s : CMState) : Decidable (presenceLive s) := by
  unfold presenceLive; infer_instance

/-- Discriminator for `new_message` payloads. -/
def isNewMessage : Payload → Bool
  | .newMessage _ _ _ => true
  | _ => false

/-- Discriminator for `ack` payloads. -/
def isAck : Payload → Bool
  | .ack _ => true
  | _ => false

/-- Discriminator for `error` payloads. -/
def isErrorEvent : Payload → Bool
  | .errorEv _ => true
  | _ => false

/-- Discriminator for `user_status` payloads. -/
def isUserStatus : Payload → Bool
  | .userStatus _ _ => true
  | _ => false

/-- The inbound tags that `handle_message` recognises. -/
def isKnownTag : Option String → Bool
  | none => false
  | some t =>
      (t == "join_chat") || (t == "leave_chat") || (t == "typing") ||
      (t == "message") || (t == "message_read")

/-- A row of the `chat_members` table, restricted to the columns that
`send_message` in `backend/app/api/routes/messages.py` queries. -/
structure ChatMemberRow where
  chat_id : Int
  user_id : Int
  is_active : Bool
  can_send_messages : Bool
deriving DecidableEq, Repr

/-- A row of the `messages` table, restricted to the columns `send_message`
reads or writes. -/
structure MessageRow where
  id : Int
  chat_id : Int
  sender_id : Int
  content : String
  reply_to_message_id : Option Int
  is_deleted : Bool
deriving DecidableEq, Repr

/-- The relational store visible to the HTTP `send_message` route.  `chats`
maps a chat id to its `last_message_at` column; `next_message_id` is the
autoincrement counter; `now` is the server timestamp the store assigns as
`created_at` on commit. -/
structure DB where
  chat_members : List ChatMemberRow
  messages : List MessageRow
  chats : List (Int × Option Int)
  next_message_id : Int
  now : Int
deriving DecidableEq, Repr

/-- The HTTP responses `send_message` can produce: 200 with the new row's id
and timestamp, 403, or 404. -/
inductive SendMessageResult where
  | ok (id : Int) (created_at : Int)
  | forbidden (detail : String)
  | notFound (detail : String)
deriving DecidableEq, Repr

/-- The membership query of `send_message` (`messages.py` lines 107-112):
first active row for this user and chat with `can_send_messages`. -/
def canSendQuery (db : DB) (user_id chat_id : Int) : Option ChatMemberRow :=
  db.chat_members.find? (fun m =>
    (m.chat_id == chat_id) && (m.user_id == user_id) && m.is_active && m.can_send_messages)

/-- `send_message` (`messages.py` lines 98-158): authorization check, then
(Python-truthy) reply-target validation, then insert-and-commit of the new
message row, then the best-effort `last_message_at` update.  A falsy
`reply_to_message_id` (absent or `0`) skips the reply validation. -/
def send_message (db : DB) (current_user_id chat_id : Int) (content : String)
    (reply_to_message_id : Option Int) : DB × SendMessageResult :=
  match canSendQuery db current_user_id chat_id with
  | none => (db, .forbidden "You cannot send messages to this chat")
  | some _ =>
      let replyTruthy :=
        match reply_to_message_id with
        | none => false
        | some rid => !(rid == 0)
      let replyOk :=
        if replyTruthy then
          db.messages.any (fun m =>
            (some m.id == reply_to_message_id) && (m.chat_id == chat_id) && !m.is_deleted)
        else true
      if replyOk then
        let mid := db.next_message_id
        let row : MessageRow :=
          { id := mid, chat_id := chat_id, sender_id := current_user_id,
            content := content, reply_to_message_id := reply_to_message_id,
            is_deleted := false }
        let db1 := { db with messages := db.messages ++ [row], next_message_id := mid + 1 }
        let db2 :=
          match alookup db1.chats chat_id with
          | some _ => { db1 with chats := aset db1.chats chat_id (some db1.now) }
          | none => db1
        (db2, .ok mid db.now)
      else (db, .notFound "Reply message not found")

/-- Whether the store authorizes the user to send in the chat (the predicate
behind the 403 branch of `send_message`). -/
def isAuthorizedSender (db : DB) (user_id chat_id : Int) : Bool :=
  (canSendQuery db user_id chat_id).isSome

/-! ### Concrete states used by the witnesses and counterexamples -/

/-- Room 5 holds users 1 and 2; both have one live connection. -/
def stC1 : CMState := ⟨[(1, [10]), (2, [20])], [(5, [1, 2])], []⟩

/-- Room 1 holds user 2 only; user 42 is connected nowhere and a member of
nothing. -/
def stC3 : CMState := ⟨[(2, [20])], [(1, [2])], []⟩

/-- An empty relational store: nobody is an authorized sender anywhere. -/
def db0 : DB := ⟨[], [], [], 1, 0⟩

/-- User 1 has two live connections and is present and typing in room 5. -/
def stC6 : CMState := ⟨[(1, [10, 11])], [(5, [1])], [(5, [1])]⟩

/-- Room 9 holds users 0, 5 and 7; users 0 and 5 have one live connection
each, user 7 has none. -/
def stC7 : CMState := ⟨[(0, [30]), (5, [50])], [(9, [0, 5, 7])], []⟩

/-- User 1 has a single live connection and no room membership. -/
def stC9 : CMState := ⟨[(1, [10])], [], []⟩

/-- User 1 has a single live connection and is present in room 5. -/
def stC10 : CMState := ⟨[(1, [10])], [(5, [1])], []⟩

/-! ### Association-list lemmas -/

theorem alookup_aset_self {β : Type} {m : List (Int × β)} {k : Int} {v : β}
    (h : alookup m k = some v) : aset m k v = m := by
  induction m with
  | nil => simp [alookup] at h
  | cons p rest ih =>
      obtain ⟨a, b⟩ := p
      by_cases hk : k = a
      · subst hk
        simp only [alookup, if_pos rfl] at h
        replace h : b = v := Option.some.inj h
        simp [aset, h]
      · simp only [alookup, if_neg hk] at h
        simp [aset, hk, ih h]

theorem alookup_aset_eq {β : Type} (m : List (Int × β)) (k : Int) (v : β) :
    alookup (aset m k v) k = some v := by
  induction m with
  | nil => simp [aset, alookup]
  | cons p rest ih =>
      obtain ⟨a, b⟩ := p
      by_cases hk : k = a
      · subst hk; simp [aset, alookup]
      · simp [aset, hk, alookup, ih]

theorem alookup_aset_ne {β : Type} (m : List (Int × β)) {k k' : Int} (v : β) (h : k' ≠ k) :
    alookup (aset m k v) k' = alookup m k' := by
  induction m with
  | nil => simp [aset, alookup, h]
  | cons p rest ih =>
      obtain ⟨a, b⟩ := p
      by_cases hk : k = a
      · subst hk; simp [aset, alookup, h]
      · simp [aset, hk, alookup, ih]

theorem alookup_mem {β : Type} {m : List (Int × β)} {k : Int} {v : β}
    (h : alookup m k = some v) : (k, v) ∈ m := by
  induction m with
  | nil => simp [alookup] at h
  | cons p rest ih =>
      obtain ⟨a, b⟩ := p
      by_cases hk : k = a
      · subst hk
        simp only [alookup, if_pos rfl] at h
        replace h : b = v := Option.some.inj h
        subst h; exact List.mem_cons_self _ _
      · simp only [alookup, if_neg hk] at h
        exact List.mem_cons_of_mem _ (ih h)

theorem alookup_eq_of_nodup {β : Type} {m : List (Int × β)}
    (hnd : (m.map Prod.fst).Nodup) {p : Int × β} (hp : p ∈ m) :
    alookup m p.1 = some p.2 := by
  induction m with
  | nil => simp at hp
  | cons q rest ih =>
      obtain ⟨a, b⟩ := q
      rw [List.map_cons, List.nodup_cons] at hnd
      rcases List.mem_cons.mp hp with h | h
      · subst h; simp [alookup]
      · have hne : p.1 ≠ a := by
          intro hcontra
          have hmem : p.1 ∈ rest.map Prod.fst := List.mem_map_of_mem Prod.fst h
          exact hnd.1 (hcontra ▸ hmem)
        simp only [alookup, if_neg hne]
        exact ih hnd.2 h

theorem alookup_eq_none_iff {β : Type} {m : List (Int × β)} {k : Int} :
    alookup m k = none ↔ k ∉ m.map Prod.fst := by
  induction m with
  | nil => simp [alookup]
  | cons p rest ih =>
      obtain ⟨a, b⟩ := p
      by_cases hk : k = a
      · subst hk; simp [alookup]
      · simp [alookup, hk, ih]

theorem mem_aset_of_nodup {β : Type} {m : List (Int × β)}
    (hnd : (m.map Prod.fst).Nodup) {k : Int} {v : β} {p : Int × β}
    (hp : p ∈ aset m k v) : p = (k, v) ∨ (p ∈ m ∧ p.1 ≠ k) := by
  induction m with
  | nil =>
      simp only [aset, List.mem_singleton] at hp
      exact Or.inl hp
  | cons q rest ih =>
      obtain ⟨a, b⟩ := q
      rw [List.map_cons, List.nodup_cons] at hnd
      by_cases hk : k = a
      · subst hk
        simp only [aset, if_pos rfl] at hp
        rcases List.mem_cons.mp hp with h | h
        · exact Or.inl h
        · refine Or.inr ⟨List.mem_cons_of_mem _ h, ?_⟩
          intro hcontra
          have hmem : p.1 ∈ rest.map Prod.fst := List.mem_map_of_mem Prod.fst h
          exact hnd.1 (hcontra ▸ hmem)
      · simp only [aset, if_neg hk] at hp
        rcases List.mem_cons.mp hp with h | h
        · subst h
          exact Or.inr ⟨List.mem_cons_self _ _, fun hc => hk hc.symm⟩
        · rcases ih hnd.2 h with h' | h'
          · exact Or.inl h'
          · exact Or.inr ⟨List.mem_cons_of_mem _ h'.1, h'.2⟩

theorem aset_map_fst_of_lookup {β : Type} {m : List (Int × β)} {k : Int} {v0 : β}
    (h : alookup m k = some v0) (v : β) :
    (aset m k v).map Prod.fst = m.map Prod.fst := by
  induction m with
  | nil => simp [alookup] at h
  | cons p rest ih =>
      obtain ⟨a, b⟩ := p
      by_cases hk : k = a
      · subst hk; simp [aset]
      · simp only [alookup, if_neg hk] at h
        simp [aset, hk, ih h]

/-! ### `list.remove` lemmas -/

theorem removeAll_nil (l : List Nat) : removeAll l [] = l := rfl

theorem removeFirst_of_ne (c : Nat) (l : List Nat) {x : Nat} (h : x ≠ c) :
    removeFirst (c :: l) x = c :: removeFirst l x := by
  show (if c = x then l else c :: removeFirst l x) = c :: removeFirst l x
  rw [if_neg (Ne.symm h)]

theorem removeAll_cons_of_ne (c : Nat) (l : List Nat) (fs : List Nat)
    (h : ∀ x ∈ fs, x ≠ c) :
    removeAll (c :: l) fs = c :: removeAll l fs := by
  induction fs generalizing l with
  | nil => rfl
  | cons f fs ih =>
      have hf : f ≠ c := h f (List.mem_cons_self _ _)
      show removeAll (removeFirst (c :: l) f) fs = c :: removeAll (removeFirst l f) fs
      rw [removeFirst_of_ne c l hf]
      exact ih (removeFirst l f) (fun x hx => h x (List.mem_cons_of_mem _ hx))

theorem removeAll_filter (l : List Nat) (hnd : l.Nodup) (p : Nat → Bool) :
    removeAll l (l.filter p) = l.filter (fun x => !p x) := by
  induction l with
  | nil => rfl
  | cons c rest ih =>
      rw [List.nodup_cons] at hnd
      by_cases hc : p c
      · have h1 : (c :: rest).filter p = c :: rest.filter p := by
          simp [List.filter_cons, hc]
        rw [h1]
        show removeAll (removeFirst (c :: rest) c) (rest.filter p) = _
        have h2 : removeFirst (c :: rest) c = rest := by simp [removeFirst]
        rw [h2, ih hnd.2]
        simp [List.filter_cons, hc]
      · have hc' : p c = false := by simpa using hc
        have h1 : (c :: rest).filter p = rest.filter p := by
          simp [List.filter_cons, hc']
        rw [h1]
        have h3 : ∀ x ∈ rest.filter p, x ≠ c := by
          intro x hx hcontra
          exact hnd.1 (hcontra ▸ (List.mem_filter.mp hx).1)
        rw [removeAll_cons_of_ne c rest _ h3, ih hnd.2]
        simp [List.filter_cons, hc']

/-! ### Send and broadcast characterizations -/

/-- With no transport failures, `send_personal_message` delivers the payload
to every live connection of the user, in order, and leaves the state
unchanged. -/
theorem send_personal_message_nil (s : CMState) (u : Int) (msg : Payload) :
    send_personal_message [] s u msg
      = (s, (connsOf s u).map (fun c => (⟨u, c, msg⟩ : Delivery))) := by
  unfold send_personal_message connsOf
  cases h : alookup s.active_connections u with
  | none => simp
  | some conns => simp [removeAll, alookup_aset_self h]

/-- Every delivery produced by `send_personal_message` carries the payload it
was asked to send. -/
theorem send_personal_message_payload (F : List Nat) (s : CMState) (u : Int) (msg : Payload) :
    ∀ d ∈ (send_personal_message F s u msg).2, d.payload = msg := by
  unfold send_personal_message
  cases h : alookup s.active_connections u with
  | none => simp
  | some conns =>
      intro d hd
      simp only [List.mem_map] at hd
      obtain ⟨c, _, rfl⟩ := hd
      rfl

/-- `send_personal_message` only ever rewrites the sent-to user's entry of the
registry; rooms and typing state are untouched. -/
theorem send_personal_message_rooms_typing (F : List Nat) (s : CMState) (u : Int)
    (msg : Payload) :
    (send_personal_message F s u msg).1.chat_rooms = s.chat_rooms
    ∧ (send_personal_message F s u msg).1.typing_users = s.typing_users := by
  unfold send_personal_message
  cases h : alookup s.active_connections u with
  | none => exact ⟨rfl, rfl⟩
  | some conns => exact ⟨rfl, rfl⟩

theorem sendStep_nil (g : Int → Bool) (msg : Payload) (acc : CMState × List Delivery)
    (uid : Int) :
    sendStep [] g msg acc uid
      = if g uid then acc
        else (acc.1, acc.2 ++ (connsOf acc.1 uid).map (fun c => (⟨uid, c, msg⟩ : Delivery))) := by
  unfold sendStep
  by_cases hg : g uid
  · simp [hg]
  · simp [hg, send_personal_message_nil]

/-- With no transport failures a broadcast fold keeps the state and appends
one delivery per live connection of each non-skipped user. -/
theorem sendFold_nil (g : Int → Bool) (msg : Payload) :
    ∀ (l : List Int) (s : CMState) (ds : List Delivery),
      l.foldl (sendStep [] g msg) (s, ds)
        = (s, ds ++ (l.filter (fun v => !g v)).flatMap
            (fun v => (connsOf s v).map (fun c => (⟨v, c, msg⟩ : Delivery)))) := by
  intro l
  induction l with
  | nil => intro s ds; simp
  | cons u rest ih =>
      intro s ds
      rw [List.foldl_cons, sendStep_nil]
      by_cases hg : g u
      · rw [if_pos hg, ih]
        simp [List.filter_cons, hg]
      · rw [if_neg hg, ih]
        simp [List.filter_cons, hg, List.append_assoc]

/-- Any broadcast fold only appends deliveries carrying the broadcast
payload. -/
theorem sendFold_payload (F : List Nat) (g : Int → Bool) (msg : Payload) :
    ∀ (l : List Int) (s : CMState) (ds : List Delivery),
      (∀ d ∈ ds, d.payload = msg) →
      ∀ d ∈ (l.foldl (sendStep F g msg) (s, ds)).2, d.payload = msg := by
  intro l
  induction l with
  | nil => intro s ds hds; simpa using hds
  | cons u rest ih =>
      intro s ds hds
      rw [List.foldl_cons]
      unfold sendStep
      by_cases hg : g u
      · rw [if_pos hg]; exact ih s ds hds
      · rw [if_neg hg]
        apply ih
        intro d hd
        rcases List.mem_append.mp hd with h | h
        · exact hds d h
        · exact send_personal_message_payload F s u msg d h

/-- A broadcast fold never touches rooms or typing state. -/
theorem sendFold_rooms_typing (F : List Nat) (g : Int → Bool) (msg : Payload) :
    ∀ (l : List Int) (s : CMState) (ds : List Delivery),
      ((l.foldl (sendStep F g msg) (s, ds)).1.chat_rooms = s.chat_rooms)
      ∧ ((l.foldl (sendStep F g msg) (s, ds)).1.typing_users = s.typing_users) := by
  intro l
  induction l with
  | nil => intro s ds; exact ⟨rfl, rfl⟩
  | cons u rest ih =>
      intro s ds
      rw [List.foldl_cons]
      unfold sendStep
      by_cases hg : g u
      · rw [if_pos hg]; exact ih s ds
      · rw [if_neg hg]
        have h1 := send_personal_message_rooms_typing F s u msg
        have h2 := ih (send_personal_message F s u msg).1
          (ds ++ (send_personal_message F s u msg).2)
        exact ⟨h2.1.trans h1.1, h2.2.trans h1.2⟩

theorem broadcast_to_chat_some (F : List Nat) {s : CMState} {c : Int} (msg : Payload)
    (e : Option Int) {members : List Int} (h : alookup s.chat_rooms c = some members) :
    broadcast_to_chat F s c msg e
      = members.foldl (sendStep F (truthyExcl e) msg) (s, []) := by
  unfold broadcast_to_chat
  rw [h]

theorem broadcast_to_chat_none (F : List Nat) {s : CMState} {c : Int} (msg : Payload)
    (e : Option Int) (h : alookup s.chat_rooms c = none) :
    broadcast_to_chat F s c msg e = (s, []) := by
  unfold broadcast_to_chat
  rw [h]

/-- With no transport failures, `broadcast_to_chat` keeps the state and
delivers the payload to each live connection of every non-excluded member. -/
theorem broadcast_to_chat_nil_charac {s : CMState} {c : Int} (msg : Payload)
    (e : Option Int) {members : List Int} (h : alookup s.chat_rooms c = some members) :
    broadcast_to_chat [] s c msg e
      = (s, (members.filter (fun v => !truthyExcl e v)).flatMap
          (fun v => (connsOf s v).map (fun cn => (⟨v, cn, msg⟩ : Delivery)))) := by
  rw [broadcast_to_chat_some [] msg e h, sendFold_nil]
  simp

theorem broadcast_to_chat_nil_state (s : CMState) (c : Int) (msg : Payload) (e : Option Int) :
    (broadcast_to_chat [] s c msg e).1 = s := by
  cases h : alookup s.chat_rooms c with
  | none => rw [broadcast_to_chat_none [] msg e h]
  | some members => rw [broadcast_to_chat_nil_charac msg e h]

theorem broadcast_to_chat_payload (F : List Nat) (s : CMState) (c : Int) (msg : Payload)
    (e : Option Int) : ∀ d ∈ (broadcast_to_chat F s c msg e).2, d.payload = msg := by
  cases h : alookup s.chat_rooms c with
  | none => rw [broadcast_to_chat_none F msg e h]; simp
  | some members =>
      rw [broadcast_to_chat_some F msg e h]
      exact sendFold_payload F (truthyExcl e) msg members s [] (by simp)

theorem broadcast_to_chat_rooms_typing (F : List Nat) (s : CMState) (c : Int) (msg : Payload)
    (e : Option Int) :
    ((broadcast_to_chat F s c msg e).1.chat_rooms = s.chat_rooms)
    ∧ ((broadcast_to_chat F s c msg e).1.typing_users = s.typing_users) := by
  cases h : alookup s.chat_rooms c with
  | none => rw [broadcast_to_chat_none F msg e h]; exact ⟨rfl, rfl⟩
  | some members =>
      rw [broadcast_to_chat_some F msg e h]
      exact sendFold_rooms_typing F (truthyExcl e) msg members s []

theorem broadcast_typing_status_nil_state (s : CMState) (c u : Int) (b : Bool) :
    (broadcast_typing_status [] s c u b).1 = s := by
  unfold broadcast_typing_status
  exact broadcast_to_chat_nil_state s c _ (some u)

theorem broadcast_user_status_nil_state (s : CMState) (u : Int) (status : String) :
    (broadcast_user_status [] s u status).1 = s := by
  unfold broadcast_user_status
  rw [sendFold_nil]

/-! ### Purge lemmas for `disconnect` -/

theorem isEmpty_false_of_ne_nil {α : Type} {l : List α} (h : l ≠ []) : l.isEmpty = false := by
  cases l with
  | nil => exact absurd rfl h
  | cons a l => rfl

/-- After the room-purge loop, the user is in no room set. -/
theorem purgeRooms_not_mem (rooms : List (Int × List Int)) (u : Int) :
    ∀ p ∈ purgeRooms rooms u, u ∉ p.2 := by
  intro p hp
  unfold purgeRooms at hp
  rw [List.mem_filterMap] at hp
  obtain ⟨q, hq, hfq⟩ := hp
  by_cases hu : u ∈ q.2
  · simp only [if_pos hu] at hfq
    by_cases he : (q.2.filter (fun v => !(v == u))).isEmpty
    · simp [he] at hfq
    · simp only [he, if_neg, Bool.false_eq_true, if_false] at hfq
      replace hfq : p = (q.1, q.2.filter (fun v => !(v == u))) := (Option.some.inj hfq).symm
      subst hfq
      intro hmem
      simpa using (List.mem_filter.mp hmem).2
  · simp only [if_neg hu] at hfq
    replace hfq : p = q := (Option.some.inj hfq).symm
    subst hfq
    exact hu

/-- Lookup through the room purge skips a head entry with a different key. -/
theorem alookup_purgeRooms_cons_ne (a : Int) (b : List Int) (rest : List (Int × List Int))
    {r : Int} (hr : r ≠ a) (u : Int) :
    alookup (purgeRooms ((a, b) :: rest) u) r = alookup (purgeRooms rest u) r := by
  unfold purgeRooms
  rw [List.filterMap_cons]
  by_cases hu : u ∈ b
  · by_cases he : (b.filter (fun v => !(v == u))).isEmpty
    · simp [hu, he]
    · simp only [hu, if_true, he, Bool.false_eq_true, if_false]
      simp [alookup, hr]
  · simp only [hu, Bool.false_eq_true, if_false, if_neg]
    simp [alookup, hr]

/-- A member of a room other than the purged user survives the room purge. -/
theorem purgeRooms_keeps (u : Int) (rooms : List (Int × List Int))
    (hnd : (rooms.map Prod.fst).Nodup) {r : Int} {l : List Int}
    (h : alookup rooms r = some l) {v : Int} (hv : v ∈ l) (hvu : v ≠ u) :
    ∃ l2, alookup (purgeRooms rooms u) r = some l2 ∧ v ∈ l2 := by
  induction rooms with
  | nil => simp [alookup] at h
  | cons q rest ih =>
      obtain ⟨a, b⟩ := q
      rw [List.map_cons, List.nodup_cons] at hnd
      by_cases hr : r = a
      · subst hr
        simp only [alookup, if_pos rfl] at h
        replace h : b = l := Option.some.inj h
        subst h
        unfold purgeRooms
        rw [List.filterMap_cons]
        by_cases hu : u ∈ b
        · have hvf : v ∈ b.filter (fun x => !(x == u)) :=
            List.mem_filter.mpr ⟨hv, by simp [hvu]⟩
          have hne : (b.filter (fun x => !(x == u))).isEmpty = false :=
            isEmpty_false_of_ne_nil (fun hc => by simp [hc] at hvf)
          simp only [hu, if_true, hne, Bool.false_eq_true, if_false]
          exact ⟨_, by simp [alookup], hvf⟩
        · simp only [hu, Bool.false_eq_true, if_false, if_neg]
          exact ⟨b, by simp [alookup], hv⟩
      · simp only [alookup, if_neg hr] at h
        rw [alookup_purgeRooms_cons_ne a b rest hr u]
        exact ih hnd.2 h

theorem purgeTypingStep_some_mem (u : Int) (s : CMState) (ds : List Delivery) (k : Int)
    {tus : List Int} (hlk : alookup s.typing_users k = some tus) (hu : u ∈ tus) :
    purgeTypingStep [] u (s, ds) k
      = ({ s with typing_users := aset s.typing_users k (tus.filter (fun v => !(v == u))) },
         ds ++ (broadcast_typing_status []
           { s with typing_users := aset s.typing_users k (tus.filter (fun v => !(v == u))) }
           k u false).2) := by
  unfold purgeTypingStep
  rw [hlk]
  simp only [hu, if_true]
  rw [Prod.ext_iff]
  exact ⟨broadcast_typing_status_nil_state _ _ _ _, rfl⟩

theorem purgeTypingStep_some_not_mem (u : Int) (s : CMState) (ds : List Delivery) (k : Int)
    {tus : List Int} (hlk : alookup s.typing_users k = some tus) (hu : u ∉ tus) :
    purgeTypingStep [] u (s, ds) k = (s, ds) := by
  unfold purgeTypingStep
  rw [hlk]
  simp [hu]

theorem purgeTypingStep_none (u : Int) (s : CMState) (ds : List Delivery) (k : Int)
    (hlk : alookup s.typing_users k = none) :
    purgeTypingStep [] u (s, ds) k = (s, ds) := by
  unfold purgeTypingStep
  rw [hlk]

/-- After processing every key that might still hold the user, the user is in
no typing set. -/
theorem purgeTypingFold_not_mem (u : Int) :
    ∀ (K : List Int) (s : CMState) (ds : List Delivery),
      (s.typing_users.map Prod.fst).Nodup →
      (∀ p ∈ s.typing_users, u ∉ p.2 ∨ p.1 ∈ K) →
      ∀ p ∈ (K.foldl (purgeTypingStep [] u) (s, ds)).1.typing_users, u ∉ p.2 := by
  intro K
  induction K with
  | nil =>
      intro s ds _ hcov p hp
      rcases hcov p hp with h | h
      · exact h
      · simp at h
  | cons k rest ih =>
      intro s ds hnd hcov
      rw [List.foldl_cons]
      cases hlk : alookup s.typing_users k with
      | none =>
          rw [purgeTypingStep_none u s ds k hlk]
          apply ih s ds hnd
          intro p hp
          rcases hcov p hp with h | h
          · exact Or.inl h
          · rcases List.mem_cons.mp h with h' | h'
            · exfalso
              have : p.1 ∈ s.typing_users.map Prod.fst := List.mem_map_of_mem Prod.fst hp
              rw [h'] at this
              exact alookup_eq_none_iff.mp hlk this
            · exact Or.inr h'
      | some tus =>
          by_cases hu : u ∈ tus
          · rw [purgeTypingStep_some_mem u s ds k hlk hu]
            apply ih
            · rw [aset_map_fst_of_lookup hlk]
              exact hnd
            · intro p hp
              rcases mem_aset_of_nodup hnd hp with h | h
              · subst h
                refine Or.inl ?_
                intro hmem
                simpa using (List.mem_filter.mp hmem).2
              · rcases hcov p h.1 with h' | h'
                · exact Or.inl h'
                · rcases List.mem_cons.mp h' with h'' | h''
                  · exact absurd h'' h.2
                  · exact Or.inr h''
          · rw [purgeTypingStep_some_not_mem u s ds k hlk hu]
            apply ih s ds hnd
            intro p hp
            rcases hcov p hp with h | h
            · exact Or.inl h
            · rcases List.mem_cons.mp h with h' | h'
              · have := alookup_eq_of_nodup hnd hp
                rw [h', hlk] at this
                replace this : tus = p.2 := Option.some.inj this
                exact Or.inl (this ▸ hu)
              · exact Or.inr h'

/-- Every typing entry after the purge loop shrank from an original entry. -/
theorem purgeTypingFold_sub (u : Int) :
    ∀ (K : List Int) (s : CMState) (ds : List Delivery),
      (s.typing_users.map Prod.fst).Nodup →
      ∀ p ∈ (K.foldl (purgeTypingStep [] u) (s, ds)).1.typing_users,
        ∃ l0, (p.1, l0) ∈ s.typing_users ∧ ∀ v ∈ p.2, v ∈ l0 := by
  intro K
  induction K with
  | nil =>
      intro s ds _ p hp
      exact ⟨p.2, hp, fun v hv => hv⟩
  | cons k rest ih =>
      intro s ds hnd
      rw [List.foldl_cons]
      cases hlk : alookup s.typing_users k with
      | none =>
          rw [purgeTypingStep_none u s ds k hlk]
          exact ih s ds hnd
      | some tus =>
          by_cases hu : u ∈ tus
          · rw [purgeTypingStep_some_mem u s ds k hlk hu]
            intro p hp
            have hnd1 : ((aset s.typing_users k
                (tus.filter (fun v => !(v == u)))).map Prod.fst).Nodup := by
              rw [aset_map_fst_of_lookup hlk]; exact hnd
            obtain ⟨l0, hl0, hsub⟩ := ih _ _ hnd1 p hp
            rcases mem_aset_of_nodup hnd hl0 with h | h
            · have hp1 : p.1 = k := congrArg Prod.fst h
              have hl0eq : l0 = tus.filter (fun v => !(v == u)) := congrArg Prod.snd h
              refine ⟨tus, ?_, ?_⟩
              · rw [hp1]; exact alookup_mem hlk
              · intro v hv
                exact (List.mem_filter.mp (hl0eq ▸ hsub v hv)).1
            · exact ⟨l0, h.1, hsub⟩
          · rw [purgeTypingStep_some_not_mem u s ds k hlk hu]
            exact ih s ds hnd

/-- Every delivery the typing-purge loop emits is a typing event of the
purged user. -/
theorem purgeTypingFold_payloads (F : List Nat) (u : Int) :
    ∀ (K : List Int) (s : CMState) (ds : List Delivery),
      (∀ d ∈ ds, ∃ c b, d.payload = Payload.typing c u b) →
      ∀ d ∈ (K.foldl (purgeTypingStep F u) (s, ds)).2,
        ∃ c b, d.payload = Payload.typing c u b := by
  intro K
  induction K with
  | nil => intro s ds hds; simpa using hds
  | cons k rest ih =>
      intro s ds hds
      rw [List.foldl_cons]
      unfold purgeTypingStep
      cases hlk : alookup s.typing_users k with
      | none => exact ih s ds hds
      | some tus =>
          by_cases hu : u ∈ tus
          · simp only [hu, if_true]
            apply ih
            intro d hd
            rcases List.mem_append.mp hd with h | h
            · exact hds d h
            · refine ⟨k, false, ?_⟩
              exact broadcast_to_chat_payload F _ k _ (some u) d h
          · simp only [hu, Bool.false_eq_true, if_false]
            exact ih s ds hds

/-- The typing-purge loop never touches rooms or the connection registry when
there are no transport failures. -/
theorem purgeTypingFold_nil_rooms_active (u : Int) :
    ∀ (K : List Int) (s : CMState) (ds : List Delivery),
      ((K.foldl (purgeTypingStep [] u) (s, ds)).1.chat_rooms = s.chat_rooms)
      ∧ ((K.foldl (purgeTypingStep [] u) (s, ds)).1.active_connections
          = s.active_connections) := by
  intro K
  induction K with
  | nil => intro s ds; exact ⟨rfl, rfl⟩
  | cons k rest ih =>
      intro s ds
      rw [List.foldl_cons]
      cases hlk : alookup s.typing_users k with
      | none => rw [purgeTypingStep_none u s ds k hlk]; exact ih s ds
      | some tus =>
          by_cases hu : u ∈ tus
          · rw [purgeTypingStep_some_mem u s ds k hlk hu]
            exact ih _ _
          · rw [purgeTypingStep_some_not_mem u s ds k hlk hu]
            exact ih s ds

/-- Phase 1 of `disconnect` touches only the connection registry. -/
theorem disconnectPhase1_rooms_typing {F : List Nat} {s : CMState} {u : Int}
    {w : Option Nat} {s1 : CMState} {ds1 : List Delivery}
    (h : disconnectPhase1 F s u w = .ok (s1, ds1)) :
    s1.chat_rooms = s.chat_rooms ∧ s1.typing_users = s.typing_users := by
  have hb : ∀ status, ((broadcast_user_status F
      { s with active_connections := aerase s.active_connections u } u status).1.chat_rooms
        = s.chat_rooms)
      ∧ ((broadcast_user_status F
      { s with active_connections := aerase s.active_connections u } u status).1.typing_users
        = s.typing_users) := by
    intro status
    unfold broadcast_user_status
    exact sendFold_rooms_typing F _ _ _ _ []
  unfold disconnectPhase1 at h
  split at h
  · replace h := Except.ok.inj h
    exact ⟨(congrArg (fun q => q.1.chat_rooms) h).symm,
           (congrArg (fun q => q.1.typing_users) h).symm⟩
  · split at h
    · split at h
      · split at h
        · replace h := Except.ok.inj h
          have h1 : (broadcast_user_status F
              { s with active_connections := aerase s.active_connections u }
              u "offline").1 = s1 := congrArg Prod.fst h
          rw [← h1]
          exact hb "offline"
        · replace h := Except.ok.inj h
          exact ⟨(congrArg (fun q => q.1.chat_rooms) h).symm,
                 (congrArg (fun q => q.1.typing_users) h).symm⟩
      · exact absurd h (by simp)
    · split at h
      · replace h := Except.ok.inj h
        have h1 : (broadcast_user_status F
            { s with active_connections := aerase s.active_connections u }
            u "offline").1 = s1 := congrArg Prod.fst h
        rw [← h1]
        exact hb "offline"
      · replace h := Except.ok.inj h
        exact ⟨(congrArg (fun q => q.1.chat_rooms) h).symm,
               (congrArg (fun q => q.1.typing_users) h).symm⟩

/-- After a successful `disconnect`, the user is absent from every room set
and every typing set — regardless of how many live connections remain. -/
theorem disconnect_purges {s : CMState} {u : Int} {w : Option Nat} {s2 : CMState}
    {ds : List Delivery} (hnd : (s.typing_users.map Prod.fst).Nodup)
    (h : disconnect [] s u w = .ok (s2, ds)) :
    (∀ p ∈ s2.chat_rooms, u ∉ p.2) ∧ (∀ p ∈ s2.typing_users, u ∉ p.2) := by
  unfold disconnect at h
  cases hph : disconnectPhase1 [] s u w with
  | error e => rw [hph] at h; exact absurd h (by simp)
  | ok pr =>
      obtain ⟨s1, ds1⟩ := pr
      rw [hph] at h
      simp only [] at h
      replace h := Except.ok.inj h
      have hrt := disconnectPhase1_rooms_typing hph
      have hs2 : (purgeTypingLoop []
          { s1 with chat_rooms := purgeRooms s1.chat_rooms u } u
          (s1.typing_users.map Prod.fst)).1 = s2 := congrArg Prod.fst h
      unfold purgeTypingLoop at hs2
      constructor
      · intro p hp
        rw [← hs2] at hp
        rw [(purgeTypingFold_nil_rooms_active u (s1.typing_users.map Prod.fst)
          { s1 with chat_rooms := purgeRooms s1.chat_rooms u } []).1] at hp
        exact purgeRooms_not_mem s1.chat_rooms u p hp
      · intro p hp
        rw [← hs2] at hp
        refine purgeTypingFold_not_mem u (s1.typing_users.map Prod.fst)
          { s1 with chat_rooms := purgeRooms s1.chat_rooms u } [] ?_ ?_ p hp
        · show (s1.typing_users.map Prod.fst).Nodup
          rw [hrt.2]
          exact hnd
        · intro q hq
          exact Or.inr (List.mem_map_of_mem Prod.fst hq)

/-- The new typing set that `set_typing_status` writes for the chat. -/
def typingUpdate (s : CMState) (c u : Int) (b : Bool) : List Int :=
  if b then sadd ((alookup s.typing_users c).getD []) u
  else ((alookup s.typing_users c).getD []).filter (fun v => !(v == u))

/-- With no transport failures, `set_typing_status` only rewrites the typing
entry of the chat. -/
theorem set_typing_status_nil_state (s : CMState) (c u : Int) (b : Bool) :
    (set_typing_status [] s c u b).1
      = { s with typing_users := aset s.typing_users c (typingUpdate s c u b) } := by
  unfold set_typing_status typingUpdate
  exact broadcast_typing_status_nil_state _ c u b

/-! ### More concrete states -/

/-- The state after `disconnect(1, websocket=10)` from `stC6`: the sibling
connection survives, but room and typing membership are purged. -/
def stC6after : CMState := ⟨[(1, [11])], [], [(5, [])]⟩

/-- The state after `disconnect(1)` from `stC1`. -/
def cmC5after : CMState := ⟨[(1, [10]), (2, [20])], [(5, [2])], []⟩

/-- User 3 with three live connections. -/
def stC8w : CMState := ⟨[(3, [10, 11, 12])], [], []⟩

/-! ### Claims -/

/-- C4 counterexample: the claim says a user with zero live connections is
absent from every `RoomPresence` set in every reachable state, and that
`join` is a no-op for a connectionless user.  The one-operation sequence
`join(1, 5)` from the fresh manager refutes both: `join_chat_room` never
consults the connection registry, so user 1 ends up present in room 5 with
zero live connections. -/
theorem C4_counterexample :
    membersOf (applyOps [WsOp.joinOp 1 5]) 5 = [1]
    ∧ hasLiveConnection (applyOps [WsOp.joinOp 1 5]) 1 = false
    ∧ applyOps [WsOp.joinOp 1 5] ≠ initState := by decide

/-- C4 (amended): `join` adds the user to the room unconditionally, so a
connectionless user can be present; what does hold is that any successful
`disconnect` call purges the user from every `RoomPresence` and `TypingState`
set (after which only a new `join` can re-add them). -/
theorem C4_amended (s : CMState) (u : Int) (w : Option Nat) (s2 : CMState)
    (ds : List Delivery) (hnd : (s.typing_users.map Prod.fst).Nodup)
    (h : disconnect [] s u w = .ok (s2, ds)) :
    (∀ p ∈ s2.chat_rooms, u ∉ p.2) ∧ (∀ p ∈ s2.typing_users, u ∉ p.2) :=
  disconnect_purges hnd h

theorem C4_witness :
    (stC10.typing_users.map Prod.fst).Nodup
    ∧ ((∀ p ∈ (⟨[(1, [10])], [], []⟩ : CMState).chat_rooms, (1 : Int) ∉ p.2)
       ∧ (∀ p ∈ (⟨[(1, [10])], [], []⟩ : CMState).typing_users, (1 : Int) ∉ p.2)) :=
  ⟨by decide, C4_amended stC10 1 none ⟨[(1, [10])], [], []⟩ [] (by decide) rfl⟩

/-- C6 counterexample: the claim says `unregister` leaves every room and
typing membership unchanged while the user still has another live connection.
From `stC6` (user 1 with connections 10 and 11, present and typing in room 5),
`disconnect(1, websocket=10)` keeps connection 11 alive yet empties room 5 and
the typing set: the purge in `ConnectionManager.disconnect` (lines 61-72) runs
unconditionally. -/
theorem C6_counterexample :
    disconnect [] stC6 1 (some 10) = Except.ok (stC6after, [])
    ∧ membersOf stC6 5 = [1] ∧ membersOf stC6after 5 = []
    ∧ connsOf stC6after 1 = [11] := ⟨rfl, rfl, rfl, rfl⟩

/-- C6 (amended): when the user retains at least one other live connection
after `unregister`, no presence-offline transition is triggered (no
`user_status` event is emitted), but the user is nonetheless purged from every
`RoomPresence` and `TypingState` set — the purge runs on every disconnect, not
only when the live set empties. -/
theorem C6_amended (s : CMState) (u : Int) (w : Nat) (conns : List Nat)
    (hc : alookup s.active_connections u = some conns)
    (hw : w ∈ conns) (hne : removeFirst conns w ≠ [])
    (hnd : (s.typing_users.map Prod.fst).Nodup) :
    ∃ s2 ds, disconnect [] s u (some w) = .ok (s2, ds)
      ∧ connsOf s2 u = removeFirst conns w
      ∧ (∀ d ∈ ds, isUserStatus d.payload = false)
      ∧ (∀ p ∈ s2.chat_rooms, u ∉ p.2) ∧ (∀ p ∈ s2.typing_users, u ∉ p.2) := by
  have hph : disconnectPhase1 [] s u (some w)
      = .ok ({ s with active_connections := aset s.active_connections u (removeFirst conns w) },
             []) := by
    unfold disconnectPhase1
    rw [hc]
    simp only []
    rw [if_pos hw, if_neg (by simp [isEmpty_false_of_ne_nil hne])]
  have hd : disconnect [] s u (some w)
      = .ok ((purgeTypingLoop []
          { s with active_connections := aset s.active_connections u (removeFirst conns w),
                   chat_rooms := purgeRooms s.chat_rooms u } u
          (s.typing_users.map Prod.fst)).1,
        [] ++ (purgeTypingLoop []
          { s with active_connections := aset s.active_connections u (removeFirst conns w),
                   chat_rooms := purgeRooms s.chat_rooms u } u
          (s.typing_users.map Prod.fst)).2) := by
    unfold disconnect
    rw [hph]
  refine ⟨_, _, hd, ?_, ?_, ?_, ?_⟩
  · unfold connsOf purgeTypingLoop
    rw [(purgeTypingFold_nil_rooms_active u (s.typing_users.map Prod.fst) _ []).2]
    rw [alookup_aset_eq]
    rfl
  · intro d hd2
    rw [List.nil_append] at hd2
    unfold purgeTypingLoop at hd2
    obtain ⟨c, b, hp⟩ := purgeTypingFold_payloads [] u (s.typing_users.map Prod.fst) _ []
      (by simp) d hd2
    rw [hp]
    rfl
  · exact (disconnect_purges hnd hd).1
  · exact (disconnect_purges hnd hd).2

theorem C6_witness :
    (alookup stC6.active_connections 1 = some [10, 11] ∧ (10 : Nat) ∈ [10, 11]
      ∧ removeFirst [10, 11] 10 ≠ [] ∧ (stC6.typing_users.map Prod.fst).Nodup)
    ∧ ∃ s2 ds, disconnect [] stC6 1 (some 10) = .ok (s2, ds)
      ∧ connsOf s2 1 = removeFirst [10, 11] 10
      ∧ (∀ d ∈ ds, isUserStatus d.payload = false)
      ∧ (∀ p ∈ s2.chat_rooms, (1 : Int) ∉ p.2) ∧ (∀ p ∈ s2.typing_users, (1 : Int) ∉ p.2) :=
  ⟨⟨by decide, by decide, by decide, by decide⟩,
   C6_amended stC6 1 10 [10, 11] (by decide) (by decide) (by decide) (by decide)⟩

/-- C8 counterexample: the claim says the overall `send` call fails exactly
when the user had zero live connections.  `send_personal_message` has no
failure outcome at all: with zero live connections (user 7 is not registered)
the call completes normally as a silent no-op — state unchanged, no
deliveries, nothing raised or returned that could distinguish it from
success. -/
theorem C8_counterexample :
    connsOf initState 7 = []
    ∧ send_personal_message [10] initState 7 (Payload.userStatus 1 "online")
        = (initState, []) := ⟨rfl, rfl⟩

/-- C8 (amended): delivery is attempted on every live connection (each is
either delivered or recorded as failed and removed); a failed write removes
only that connection and the loop continues to the siblings; the call never
fails — with zero live connections it is a silent no-op. -/
theorem C8_amended (F : List Nat) (s : CMState) (u : Int) (msg : Payload) (conns : List Nat)
    (h : alookup s.active_connections u = some conns) (hnd : conns.Nodup) :
    send_personal_message F s u msg
      = ({ s with active_connections := aset s.active_connections u (conns.filter (fun c => c ∉ F)) },
         (conns.filter (fun c => c ∉ F)).map (fun c => (⟨u, c, msg⟩ : Delivery))) := by
  unfold send_personal_message
  rw [h]
  have hra := removeAll_filter conns hnd (fun c => decide (c ∈ F))
  simp only [decide_not]
  simp only [] at hra ⊢
  rw [hra]

theorem C8_witness :
    (alookup stC8w.active_connections 3 = some [10, 11, 12] ∧ ([10, 11, 12] : List Nat).Nodup)
    ∧ send_personal_message [11] stC8w 3 (Payload.userStatus 1 "x")
      = ({ stC8w with active_connections := aset stC8w.active_connections 3 (([10, 11, 12] : List Nat).filter (fun c => c ∉ ([11] : List Nat))) },
         (([10, 11, 12] : List Nat).filter (fun c => c ∉ ([11] : List Nat))).map
           (fun c => (⟨3, c, Payload.userStatus 1 "x"⟩ : Delivery))) :=
  ⟨⟨by decide, by decide⟩,
   C8_amended [11] stC8w 3 (Payload.userStatus 1 "x") [10, 11, 12] (by decide) (by decide)⟩

/-- C10: the claim says disconnect cleanup removes the closed connection from
the Session Registry exactly once, leaving no reference to it.  The endpoint's
only cleanup call (`main.py` line 105) is `disconnect(user_id)` with no
websocket argument, so `ConnectionManager.disconnect` removes nothing from
`active_connections`: after user 1's sole connection 10 closes and cleanup
runs, connection 10 is still registered (and, the list being non-empty, no
offline transition fires) while room membership was purged.  This contradicts
the code's own cleanup design (the `websocket` parameter of `disconnect`
exists precisely to remove the closed connection). -/
theorem C10_code_eval :
    disconnect [] stC10 1 none = Except.ok ((⟨[(1, [10])], [], []⟩ : CMState), [])
    ∧ connsOf stC10 1 = [10] := ⟨rfl, rfl⟩

/-- C1 counterexample: the claim requires exactly one `ack` event to the
sender and no `new_message` event to the sender.  In `stC1` (room 5 = users
1, 2, both connected) user 1 sends `{"type": "message", "chat_id": 5,
"content": "hi"}`: the `"message"` branch of `handle_message` broadcasts with
no `exclude_user_id` and never builds an `ack`, so the sender receives a
`new_message` and nobody receives an `ack`. -/
theorem C1_counterexample :
    ¬ ((((handle_message [] stC1 1 (msgEvent 5 "hi")).2.filter
          (fun d => d.user == 1 && isAck d.payload)).length = 1)
       ∧ (((handle_message [] stC1 1 (msgEvent 5 "hi")).2.filter
          (fun d => d.user == 1 && isNewMessage d.payload)).length = 0)) := by decide

/-- C1 (amended): a successful websocket send delivers exactly one
`new_message` event per live connection of every user present in the room —
the sender included, since `broadcast_to_chat` is called with no
`exclude_user_id`; no `ack` event is produced and the payload carries no
persisted message id (the fields are chat id, sender id and content only,
because no persistence happens on this path). -/
theorem C1_amended (s : CMState) (sender c : Int) (content : String) (members : List Int)
    (hc : c ≠ 0) (hcont : content ≠ "")
    (hm : alookup s.chat_rooms c = some members) :
    handle_message [] s sender (msgEvent c content)
      = (s, members.flatMap (fun v => (connsOf s v).map
          (fun cn => (⟨v, cn, Payload.newMessage c sender content⟩ : Delivery)))) := by
  have h0 : handle_message [] s sender (msgEvent c content)
      = (if c == 0 then (s, [])
         else if content == "" then (s, [])
         else broadcast_to_chat [] s c (.newMessage c sender content) none) := rfl
  rw [h0, if_neg (by simp [hc]), if_neg (by simp [hcont])]
  rw [broadcast_to_chat_nil_charac _ none hm]
  have hg : ∀ v : Int, truthyExcl none v = false := fun v => rfl
  simp [hg]

theorem C1_witness :
    ((5 : Int) ≠ 0 ∧ ("hi" : String) ≠ "" ∧ alookup stC1.chat_rooms 5 = some [1, 2])
    ∧ handle_message [] stC1 1 (msgEvent 5 "hi")
      = (stC1, ([1, 2] : List Int).flatMap (fun v => (connsOf stC1 v).map
          (fun cn => (⟨v, cn, Payload.newMessage 5 1 "hi"⟩ : Delivery)))) :=
  ⟨⟨by decide, by decide, by decide⟩,
   C1_amended stC1 1 5 "hi" [1, 2] (by decide) (by decide) (by decide)⟩

/-- C2: the claim requires every inbound send-message event to be durably
persisted (obtaining a canonical id) before any broadcast, with no broadcast
when persistence fails.  The websocket path broadcasts without any
persistence call at all: the `"message"` branch of `handle_message`
(`websocket_manager.py` lines 214-228, whose own comment reads "This would
typically save the message to database and then broadcast to chat members")
builds the `new_message` dictionary locally — with no message id field — and
broadcasts it immediately.  Evaluating the code on the failing input shows
both present users receive an unpersisted `new_message` carrying only chat
id, sender id and content. -/
theorem C2_code_eval :
    (handle_message [] stC1 1 (msgEvent 5 "hi")).2
      = [⟨1, 10, Payload.newMessage 5 1 "hi"⟩, ⟨2, 20, Payload.newMessage 5 1 "hi"⟩] := by
  decide

/-- C3 counterexample: the claim says an unauthorized sender's send produces
no broadcast.  The websocket `"message"` path never consults authorization:
user 42 — authorized nowhere (the store `db0` has no membership rows at all)
— sends to room 1 and the present member still receives the broadcast. -/
theorem C3_counterexample :
    isAuthorizedSender db0 42 1 = false
    ∧ (handle_message [] stC3 42 (msgEvent 1 "x")).2 ≠ [] := by decide

/-- C3 (amended): on the HTTP route, a sender with no active
`can_send_messages` membership row for the chat receives 403 Forbidden and
the store is returned unchanged — no message row is created, so the
persistence step is never reached.  (The websocket message path performs no
authorization check at all.) -/
theorem C3_amended (db : DB) (u c : Int) (content : String) (r : Option Int)
    (h : canSendQuery db u c = none) :
    send_message db u c content r = (db, .forbidden "You cannot send messages to this chat") := by
  unfold send_message
  rw [h]

theorem C3_witness :
    canSendQuery db0 42 1 = none
    ∧ send_message db0 42 1 "x" none
        = (db0, .forbidden "You cannot send messages to this chat") :=
  ⟨by decide, C3_amended db0 42 1 "x" none (by decide)⟩

/-- C7 counterexample: from `stC7` (room 9 = users 0, 5, 7; users 0 and 5
connected, user 7 present with no connection), `set_typing(9, user 0, true)`
violates the claim twice: the sender (user 0) receives their own typing event
— the Python truthiness test `if exclude_user_id and ...` never fires for
user id 0 — and present member 7 receives nothing because they have no live
connection. -/
theorem C7_counterexample :
    (∃ d ∈ (set_typing_status [] stC7 9 0 true).2, d.user = 0)
    ∧ (∀ d ∈ (set_typing_status [] stC7 9 0 true).2, d.user ≠ 7)
    ∧ (0 : Int) ∈ membersOf stC7 9 ∧ (7 : Int) ∈ membersOf stC7 9 := by decide

/-- C7 (amended): for a sender with nonzero user id, the typing event is
delivered to exactly the other members of `RoomPresence[room]`, one event per
live connection of each (a present member with no live connection receives
nothing); for sender id 0 the exclusion check is skipped by Python
truthiness and the sender also receives the event. -/
theorem C7_amended (s : CMState) (c u : Int) (b : Bool) (members : List Int)
    (hu : u ≠ 0) (hm : alookup s.chat_rooms c = some members) :
    (set_typing_status [] s c u b).2
      = (members.filter (fun v => !(v == u))).flatMap
          (fun v => (connsOf s v).map (fun cn => (⟨v, cn, Payload.typing c u b⟩ : Delivery))) := by
  have heq : set_typing_status [] s c u b
      = broadcast_to_chat [] { s with typing_users := aset s.typing_users c (typingUpdate s c u b) }
          c (Payload.typing c u b) (some u) := rfl
  rw [heq]
  rw [broadcast_to_chat_nil_charac _ (some u)
    (show alookup ({ s with typing_users := aset s.typing_users c (typingUpdate s c u b) } : CMState).chat_rooms c = some members from hm)]
  have hg : ∀ v : Int, truthyExcl (some u) v = (v == u) := by
    intro v
    simp [truthyExcl, hu]
  simp only [hg]
  rfl

theorem C7_witness :
    ((5 : Int) ≠ 0 ∧ alookup stC7.chat_rooms 9 = some [0, 5, 7])
    ∧ (set_typing_status [] stC7 9 5 true).2
      = (([0, 5, 7] : List Int).filter (fun v => !(v == (5 : Int)))).flatMap
          (fun v => (connsOf stC7 v).map
            (fun cn => (⟨v, cn, Payload.typing 9 5 true⟩ : Delivery))) :=
  ⟨⟨by decide, by decide⟩, C7_amended stC7 9 5 true [0, 5, 7] (by decide) (by decide)⟩

/-- C9 counterexample: the claim says a malformed payload produces an `error`
event back to the same connection.  On unparseable text the endpoint loop
(`main.py` lines 92-101) instead builds a `{"type": "message"}` echo
dictionary and sends it via `send_personal_message`: the event delivered to
user 1's connection is a `message`-type echo and no `error` event exists. -/
theorem C9_counterexample :
    (websocket_endpoint_step [] stC9 1 (RawInbound.malformed "not json")).2
      = [⟨1, 10, Payload.textMessage 1 "not json"⟩]
    ∧ (∀ d ∈ (websocket_endpoint_step [] stC9 1 (RawInbound.malformed "not json")).2,
        isErrorEvent d.payload = false) := by decide

/-- C9 (amended): a malformed (unparseable) payload causes a `message`-type
echo of the raw text — not an `error` event — to be sent to every live
connection of the sender, with no change to the registry, rooms or typing
state; an event whose tag is not one of the known tags (`join_chat`,
`leave_chat`, `typing`, `message`, `message_read`) falls through every
dispatch branch and is ignored with no state change and no reply. -/
theorem C9_amended (s : CMState) (u : Int) (t : String) (m : InboundMsg) (F : List Nat)
    (hm : isKnownTag m.type = false) :
    websocket_endpoint_step [] s u (RawInbound.malformed t)
      = (s, (connsOf s u).map (fun c => (⟨u, c, Payload.textMessage u t⟩ : Delivery)))
    ∧ websocket_endpoint_step F s u (RawInbound.parsed m) = (s, []) := by
  constructor
  · unfold websocket_endpoint_step
    exact send_personal_message_nil s u _
  · unfold websocket_endpoint_step handle_message
    simp only []
    obtain ⟨mt, mc, mco, mit, mid⟩ := m
    cases mt with
    | none => rfl
    | some tg =>
        simp only [isKnownTag, Bool.or_eq_false_iff] at hm
        obtain ⟨⟨⟨⟨h1, h2⟩, h3⟩, h4⟩, h5⟩ := hm
        split
        · simp_all
        · simp_all
        · simp_all
        · simp_all
        · simp_all
        · rfl

theorem C9_witness :
    isKnownTag (InboundMsg.mk (some "bogus") none none none none).type = false
    ∧ websocket_endpoint_step [] stC9 1 (RawInbound.malformed "x")
        = (stC9, (connsOf stC9 1).map (fun c => (⟨1, c, Payload.textMessage 1 "x"⟩ : Delivery)))
    ∧ websocket_endpoint_step []
        stC9 1 (RawInbound.parsed (InboundMsg.mk (some "bogus") none none none none))
        = (stC9, []) := by
  have h := C9_amended stC9 1 "x" (InboundMsg.mk (some "bogus") none none none none) []
    (by decide)
  exact ⟨by decide, h.1, h.2⟩

/-- C5 counterexample: the claim says every operation preserves
`TypingState[room] ⊆ RoomPresence[room]`.  A connected user who sends a
typing event for a room they never joined breaks it: after
`connect(1, ws=10); set_typing(1, room 5, true)` user 1 is in
`TypingState[5]` but `RoomPresence[5]` does not exist —
`set_typing_status` performs no presence check. -/
theorem C5_counterexample :
    ¬ typingSubset (applyOps [WsOp.connectOp 1 10, WsOp.typingOp 1 5 true]) := by decide

/-- C5 (amended): `join`, `leave`, `set_typing(..., false)` and `disconnect`
all preserve `TypingState[room] ⊆ RoomPresence[room]`; the one operation that
need not preserve it is `set_typing` with `is_typing = true`, which adds the
sender to `TypingState[room]` without checking presence. -/
theorem C5_amended (s : CMState) (u c : Int)
    (hndT : (s.typing_users.map Prod.fst).Nodup)
    (hndR : (s.chat_rooms.map Prod.fst).Nodup)
    (hsub : typingSubset s) :
    typingSubset (join_chat_room s u c)
    ∧ typingSubset (leave_chat_room [] s u c).1
    ∧ typingSubset (set_typing_status [] s c u false).1
    ∧ (∀ (w : Option Nat) (s2 : CMState) (ds : List Delivery),
        disconnect [] s u w = .ok (s2, ds) → typingSubset s2) := by
  have hjoin : typingSubset (join_chat_room s u c) := by
    intro p hp v hv
    have hv' : v ∈ membersOf s p.1 := hsub p hp v hv
    show v ∈ membersOf (join_chat_room s u c) p.1
    unfold membersOf join_chat_room
    simp only []
    by_cases hpc : p.1 = c
    · rw [hpc, alookup_aset_eq]
      simp only [Option.getD_some]
      unfold sadd
      have hvcur : v ∈ (alookup s.chat_rooms c).getD [] := by
        rw [← hpc]; exact hv'
      by_cases hu2 : u ∈ (alookup s.chat_rooms c).getD []
      · rw [if_pos hu2]; exact hvcur
      · rw [if_neg hu2]; exact List.mem_append_left _ hvcur
    · rw [alookup_aset_ne _ _ hpc]
      exact hv'
  have hset : typingSubset (set_typing_status [] s c u false).1 := by
    rw [set_typing_status_nil_state]
    intro p hp v hv
    show v ∈ membersOf s p.1
    rcases mem_aset_of_nodup hndT hp with h | h
    · have hp1 : p.1 = c := congrArg Prod.fst h
      have hp2 : p.2 = typingUpdate s c u false := congrArg Prod.snd h
      rw [hp2] at hv
      unfold typingUpdate at hv
      simp only [Bool.false_eq_true, if_false] at hv
      have hv2 := List.mem_filter.mp hv
      cases hlt : alookup s.typing_users c with
      | none => rw [hlt] at hv2; simp at hv2
      | some tus =>
          rw [hlt] at hv2
          simp only [Option.getD_some] at hv2
          rw [hp1]
          exact hsub (c, tus) (alookup_mem hlt) v hv2.1
    · exact hsub p h.1 v hv
  have hleave : typingSubset (leave_chat_room [] s u c).1 := by
    unfold leave_chat_room
    cases hr : alookup s.chat_rooms c with
    | none => exact hsub
    | some members =>
        simp only []
        by_cases hum : u ∈ members
        · rw [if_pos hum]
          cases hlt : alookup s.typing_users c with
          | none =>
              simp only [hlt]
              intro p hp v hv
              by_cases hpc : p.1 = c
              · exfalso
                have := alookup_eq_of_nodup hndT hp
                rw [hpc, hlt] at this
                exact Option.noConfusion this
              · show v ∈ (alookup (aset s.chat_rooms c
                    (members.filter (fun x => !(x == u)))) p.1).getD []
                rw [alookup_aset_ne _ _ hpc]
                exact hsub p hp v hv
          | some tus =>
              simp only [hlt]
              by_cases hut : u ∈ tus
              · rw [if_pos hut]
                rw [set_typing_status_nil_state]
                intro p hp v hv
                rcases mem_aset_of_nodup hndT hp with h | h
                · have hp1 : p.1 = c := congrArg Prod.fst h
                  have hp2 := congrArg Prod.snd h
                  rw [hp2] at hv
                  unfold typingUpdate at hv
                  simp only [Bool.false_eq_true, if_false, hlt, Option.getD_some] at hv
                  have hv2 := List.mem_filter.mp hv
                  have hvm : v ∈ members := by
                    have := hsub (c, tus) (alookup_mem hlt) v hv2.1
                    unfold membersOf at this
                    rw [hr] at this
                    simpa using this
                  show v ∈ (alookup (aset s.chat_rooms c
                      (members.filter (fun x => !(x == u)))) p.1).getD []
                  rw [hp1, alookup_aset_eq]
                  simp only [Option.getD_some]
                  exact List.mem_filter.mpr ⟨hvm, hv2.2⟩
                · show v ∈ (alookup (aset s.chat_rooms c
                      (members.filter (fun x => !(x == u)))) p.1).getD []
                  rw [alookup_aset_ne _ _ h.2]
                  exact hsub p h.1 v hv
              · rw [if_neg hut]
                intro p hp v hv
                by_cases hpc : p.1 = c
                · have hpt : p.2 = tus := by
                    have := alookup_eq_of_nodup hndT hp
                    rw [hpc, hlt] at this
                    exact (Option.some.inj this).symm
                  have hvt : v ∈ tus := hpt ▸ hv
                  have hvne : v ≠ u := fun hc => hut (hc ▸ hvt)
                  have hvm : v ∈ members := by
                    have := hsub p hp v hv
                    unfold membersOf at this
                    rw [hpc, hr] at this
                    simpa using this
                  show v ∈ (alookup (aset s.chat_rooms c
                      (members.filter (fun x => !(x == u)))) p.1).getD []
                  rw [hpc, alookup_aset_eq]
                  simp only [Option.getD_some]
                  exact List.mem_filter.mpr ⟨hvm, by simp [hvne]⟩
                · show v ∈ (alookup (aset s.chat_rooms c
                      (members.filter (fun x => !(x == u)))) p.1).getD []
                  rw [alookup_aset_ne _ _ hpc]
                  exact hsub p hp v hv
        · rw [if_neg hum]
          exact hsub
  have hdisc : ∀ (w : Option Nat) (s2 : CMState) (ds : List Delivery),
      disconnect [] s u w = .ok (s2, ds) → typingSubset s2 := by
    intro w s2 ds h
    unfold disconnect at h
    cases hph : disconnectPhase1 [] s u w with
    | error e => rw [hph] at h; exact absurd h (by simp)
    | ok pr =>
        obtain ⟨s1, ds1⟩ := pr
        rw [hph] at h
        simp only [] at h
        replace h := Except.ok.inj h
        have hrt := disconnectPhase1_rooms_typing hph
        have hs2 : (purgeTypingLoop [] { s1 with chat_rooms := purgeRooms s1.chat_rooms u } u
            (s1.typing_users.map Prod.fst)).1 = s2 := congrArg Prod.fst h
        unfold purgeTypingLoop at hs2
        intro p hp v hv
        rw [← hs2] at hp
        have hndsp : (({ s1 with chat_rooms := purgeRooms s1.chat_rooms u } :
            CMState).typing_users.map Prod.fst).Nodup := by
          show (s1.typing_users.map Prod.fst).Nodup
          rw [hrt.2]; exact hndT
        have hnm : u ∉ p.2 := by
          refine purgeTypingFold_not_mem u (s1.typing_users.map Prod.fst) _ [] hndsp ?_ p hp
          intro q hq
          exact Or.inr (List.mem_map_of_mem Prod.fst hq)
        obtain ⟨l0, hl0, hsubl⟩ :=
          purgeTypingFold_sub u (s1.typing_users.map Prod.fst) _ [] hndsp p hp
        have hl0' : (p.1, l0) ∈ s.typing_users := by
          rw [← hrt.2]; exact hl0
        have hvmem : v ∈ membersOf s p.1 := hsub (p.1, l0) hl0' v (hsubl v hv)
        have hvne : v ≠ u := fun hc => hnm (hc ▸ hv)
        unfold membersOf at hvmem
        cases hlr : alookup s.chat_rooms p.1 with
        | none => rw [hlr] at hvmem; simp at hvmem
        | some l =>
            rw [hlr] at hvmem
            simp only [Option.getD_some] at hvmem
            obtain ⟨l2, hlk2, hv2⟩ := purgeRooms_keeps u s.chat_rooms hndR hlr hvmem hvne
            show v ∈ membersOf s2 p.1
            unfold membersOf
            have hrooms : s2.chat_rooms = purgeRooms s.chat_rooms u := by
              rw [← hs2]
              rw [(purgeTypingFold_nil_rooms_active u (s1.typing_users.map Prod.fst) _ []).1]
              show purgeRooms s1.chat_rooms u = purgeRooms s.chat_rooms u
              rw [hrt.1]
            rw [hrooms, hlk2]
            simpa using hv2
  exact ⟨hjoin, hleave, hset, hdisc⟩

theorem C5_witness :
    ((stC1.typing_users.map Prod.fst).Nodup ∧ (stC1.chat_rooms.map Prod.fst).Nodup
      ∧ typingSubset stC1)
    ∧ typingSubset (join_chat_room stC1 1 5)
    ∧ typingSubset (leave_chat_room [] stC1 1 5).1
    ∧ typingSubset (set_typing_status [] stC1 5 1 false).1
    ∧ typingSubset cmC5after := by
  have h := C5_amended stC1 1 5 (by decide) (by decide) (by decide)
  exact ⟨⟨by decide, by decide, by decide⟩, h.1, h.2.1, h.2.2.1,
    h.2.2.2 none cmC5after [] rfl⟩

end KoxiTalk
